import Mathlib

/-!
Verification of the overleaf-sync synchronization engine
(`overleaf_sync.py`, `diff.py`).

Each Python function relevant to the claims is shallowly embedded as an
executable Lean definition.  External effects (HTTP responses, git
subprocess output, the interactive prompt) are passed in explicitly as
oracle parameters; a Python `assert` failure or raised exception is
modelled as `Except.error` carrying the exception text.
-/

/-- One entry of an update's `meta.users` list (`update["meta"]["users"]`). -/
structure User where
  id : String
  first_name : String
  last_name : String
  email : String
deriving DecidableEq

/-- One remote revision as returned by the `/updates` endpoint:
`{fromV, toV, meta: {users, end_ts}}`, in the fields the sync engine reads. -/
structure Update where
  fromV : Nat
  toV : Nat
  users : List User
  end_ts : Nat
deriving DecidableEq

/-- A git commit produced by `OverleafProject._migrate`: message `fromV->toV`,
commit date `ts`, and the author passed to `git commit --author` (`none`
corresponds to the Python `user=None` case, committed as "Unknown"). -/
structure Commit where
  fromV : Nat
  toV : Nat
  ts : Nat
  author : Option User
deriving DecidableEq

/-- The multi-user loop of `OverleafProject._migrate_update`
(overleaf_sync.py lines 836-863).  `probe a b` stands for
`_get_filetree_diff_users_ts(a, b)`: the distinct users contributing diff
activity in the window `(a, b)` together with the max `end_ts` seen.
The commits are listed in the order the `_migrate` calls are made.

Python details reflected here:
* `users, ts = _get_filetree_diff_users_ts(from_v, v)` reassigns `ts` on
  every iteration, including iterations skipped for having no users;
* in the two-user branch, `next(user for user in users if user is not
  current_user)` compares by object identity against freshly parsed JSON
  dicts, so it always yields the first element of the probed list;
* the `for ... else` clause always runs (the loop body has no `break`),
  flushing the final span `from_v -> toV`.
-/
def migrate_update_loop (probe : Nat → Nat → List User × Nat) (toV : Nat) :
    List Nat → Nat → Nat → Option User → Except String (List Commit)
  | [], from_v, ts, cur => .ok [⟨from_v, toV, ts, cur⟩]
  | v :: vs, from_v, _, cur =>
    match probe from_v v, cur with
    | ([], ts), c => migrate_update_loop probe toV vs from_v ts c
    | ([u], ts), none => migrate_update_loop probe toV vs from_v ts (some u)
    | ([u], ts), some c =>
      if c.id = u.id then migrate_update_loop probe toV vs from_v ts (some c)
      else if from_v < v - 1 then
        Except.map (fun rest => Commit.mk from_v (v - 1) ts (some c) :: rest)
          (migrate_update_loop probe toV vs (v - 1) ts (some u))
      else .error "AssertionError: There should be at least one update before this"
    | ([u1, _], ts), c2 =>
      if from_v < v - 1 then
        match c2 with
        | some c =>
          Except.map (fun rest => Commit.mk from_v (v - 1) ts (some c) :: rest)
            (migrate_update_loop probe toV vs (v - 1) ts (some u1))
        | none => .error "AssertionError: Current user should be set"
      else .error "AssertionError: There should be at least one update before this"
    | (_, _), _ => .error "ValueError: Too many users in the update"

/-- `OverleafProject._migrate_update` (overleaf_sync.py lines 800-863),
restricted to its commit bookkeeping.  A single-user update is migrated as
one commit spanning `fromV -> toV` with timestamp `end_ts // 1000`;
otherwise the sub-boundary walk `for v in range(fromV + 1, toV)` runs. -/
def migrate_update (probe : Nat → Nat → List User × Nat) (upd : Update) :
    Except String (List Commit) :=
  if upd.users.length = 1 then
    .ok [⟨upd.fromV, upd.toV, upd.end_ts / 1000, upd.users.head?⟩]
  else
    migrate_update_loop probe upd.toV
      (List.range' (upd.fromV + 1) (upd.toV - (upd.fromV + 1)))
      upd.fromV upd.end_ts none

/-- `covers cs a b` holds when the spans of `cs`, in order, tile the
interval `[a, b]` exactly: each commit starts where the previous one ended,
each span is non-empty, the first starts at `a` and the last ends at `b`. -/
def covers : List Commit → Nat → Nat → Bool
  | [], a, b => a == b
  | c :: cs, a, b => c.fromV == a && Nat.blt a c.toV && covers cs c.toV b

/-- A probe oracle reporting no diff activity in any window. -/
def probe_silent : Nat → Nat → List User × Nat := fun _ _ => ([], 0)

def userA : User := ⟨"idA", "Alice", "Ander", "alice@example.com"⟩

def userB : User := ⟨"idB", "Bob", "Baker", "bob@example.com"⟩

/-- A two-user update spanning a single version step. -/
def upd_c1 : Update := ⟨0, 1, [userA, userB], 5⟩

deriving instance DecidableEq for Except

/-- The probe oracle of the spec's example scenario: only user A active in
window (10,11), only user B active in window (11,12). -/
def probe_c2 : Nat → Nat → List User × Nat := fun a b =>
  if a == 10 && b == 11 then ([userA], 1001)
  else if a == 11 && b == 12 then ([userB], 1002)
  else ([], 0)

/-- The spec's example revision: `{fromV:10, toV:12, users:[A,B]}`. -/
def upd_c2 : Update := ⟨10, 12, [userA, userB], 9999⟩

/-- The slice of git repository state the fork-point claims depend on:
the tip commit of the `overleaf` branch, the tip of the `working` branch,
and the commit the `ws` tag (`WORKING_BRANCH_START_COMMIT_TAG`) points at.
Commits are identified by numbers. -/
structure GitState where
  overleaf_tip : Nat
  working_tip : Nat
  ws_tag : Nat
deriving DecidableEq

/-- `GitBroker._update_working_branch_start_commit` (overleaf_sync.py lines
168-169): `git tag -f ws <overleaf_branch>`. -/
def update_working_branch_start_commit (s : GitState) : GitState :=
  { s with ws_tag := s.overleaf_tip }

/-- `GitBroker.rebase_working_branch` (overleaf_sync.py lines 188-200).
Whether `git rebase` reports a conflict is decided by git, so it is the
oracle parameter `conflict`; `rebased_tip` is the new working-branch tip a
successful rebase would produce.  The fork-point tag is force-updated
unconditionally, before the output is checked for "CONFLICT". -/
def rebase_working_branch (conflict : Bool) (rebased_tip : Nat) (s : GitState) :
    Bool × GitState :=
  let s1 := if conflict then s else { s with working_tip := rebased_tip }
  (!conflict, update_working_branch_start_commit s1)

/-- `OverleafProject.new_remote_overleaf_rev` (overleaf_sync.py lines
946-952): `assert remote_overleaf_version >= local_overleaf_version`, then
report whether the remote is strictly ahead. -/
def new_remote_overleaf_rev (remoteV localV : Nat) : Except String Bool :=
  if remoteV < localV then
    .error "AssertionError: remote_overleaf_version >= local_overleaf_version"
  else .ok (decide (localV < remoteV))

/-- The "upcoming" revisions of `OverleafProject._pull` (overleaf_sync.py
lines 983-985): the prefix of the newest-first updates list whose `toV`
exceeds the locally recorded version. -/
def upcoming_updates (localV : Nat) (updates : List Update) : List Update :=
  updates.takeWhile (fun r => decide (localV < r.toV))

/-- The boundary correction of `OverleafProject._pull` (overleaf_sync.py
lines 988-992): if the oldest upcoming revision (the last element of the
newest-first list) has `fromV` below the recorded version, clamp its
`fromV` up to the recorded version; everything else is left untouched. -/
def clamp_oldest (localV : Nat) (ups : List Update) : List Update :=
  match ups.getLast? with
  | none => ups
  | some l =>
    if l.fromV < localV then ups.dropLast ++ [{ l with fromV := localV }]
    else ups

/-- The locally recorded remote version after one `pull` invocation
(`OverleafProject.pull` / `_pull`, overleaf_sync.py lines 976-1001 and
1020-1048), as a function of the remote's newest-first updates list and the
version recorded on the overleaf branch.  `_migrate_updates` replays
`reversed(upcoming)` oldest-first, so the last commit written is for the
head of the newest-first list and `local_overleaf_version` afterwards is
that head's `toV`.  An empty remote updates list raises in
`OverleafBroker.get_updates`. -/
def pull_local_version (updates : List Update) (localV : Nat) :
    Except String Nat :=
  match updates with
  | [] => .error "ValueError: Failed to fetch project updates"
  | u :: rest =>
    match new_remote_overleaf_rev u.toV localV with
    | .error e => .error e
    | .ok false => .ok localV
    | .ok true =>
      let ups := upcoming_updates localV (u :: rest)
      if ups.isEmpty then
        .error "AssertionError: len(upcoming_overleaf_versions) > 0"
      else
        match (clamp_oldest localV ups).head? with
        | none => .error "AssertionError: len(upcoming_overleaf_versions) > 0"
        | some newest => .ok newest.toV

/-- The locally recorded remote version after a sequence of pulls, each
seeing its own remote updates list; an aborted pull stops the run. -/
def pull_seq : List (List Update) → Nat → Except String Nat
  | [], v => .ok v
  | ups :: rest, v =>
    match pull_local_version ups v with
    | .error e => .error e
    | .ok w => pull_seq rest w

/-- One fragment of a per-file diff response: the optional `u` (unchanged),
`i` (inserted) and `d` (deleted) keys of the JSON object.  A key that is
present carries the fragment's text. -/
structure DiffFrag where
  u : Option String
  i : Option String
  d : Option String
deriving DecidableEq

/-- How many of the three exclusive kind tags a fragment carries
(`exclusive_status.intersection(d.keys())` in the Python). -/
def tag_count (f : DiffFrag) : Nat :=
  (if f.u.isSome then 1 else 0) + (if f.i.isSome then 1 else 0) +
    (if f.d.isSome then 1 else 0)

/-- `_diff_to_content` inside `OverleafProject._apply_changes_diff`
(overleaf_sync.py lines 735-750): assert exactly one kind tag per fragment,
append the text of `u` and `i` fragments, skip `d` fragments. -/
def diff_to_content : List DiffFrag → Except String String
  | [] => .ok ""
  | f :: fs =>
    if tag_count f = 1 then
      match f.u, f.i with
      | some s, _ => Except.map (fun rest => s ++ rest) (diff_to_content fs)
      | none, some s => Except.map (fun rest => s ++ rest) (diff_to_content fs)
      | none, none => diff_to_content fs
    else .error "AssertionError: len(found_status) == 1"

/-- Modelled from the spec's words for comparison with `diff_to_content`:
"concatenating `unchanged` and `inserted` fragments in order (skipping
`deleted`) reconstructs a file's full content at the target revision". -/
def spec_reconstruct : List DiffFrag → String
  | [] => ""
  | f :: fs =>
    match f.u.orElse (fun _ => f.i) with
    | some s => s ++ spec_reconstruct fs
    | none => spec_reconstruct fs

/-- A remote mutation call issued by push: `OverleafBroker.delete` or
`OverleafBroker.upload` on a pathname. -/
inductive RemoteCall
  | del (pathname : String)
  | up (pathname : String)
deriving DecidableEq

/-- Python's `str.split("\t")` on the characters of a status line: every
tab is a separator, adjacent tabs produce empty columns, and the empty
string yields one empty column. -/
def split_tab : List Char → List (List Char)
  | [] => [[]]
  | c :: cs =>
    match split_tab cs with
    | [] => [[]]
    | w :: ws => if c = '\t' then [] :: w :: ws else (c :: w) :: ws

/-- `columns = line.split("\t")` of `OverleafProject._push`. -/
def line_columns (line : String) : List String :=
  (split_tab line.toList).map List.asString

/-- Classification of one `git diff --name-status` line in
`OverleafProject._push` (overleaf_sync.py lines 1082-1101): the line is
split on tabs, dispatch is on the first character of the first column, and
the result is the (deletes, uploads) contribution of the line. -/
def line_actions (line : String) : Except String (List String × List String) :=
  match line_columns line with
  | [] => .error "IndexError: string index out of range"
  | c0 :: rest =>
    match c0.toList with
    | [] => .error "IndexError: string index out of range"
    | ch :: _ =>
      match ch with
      | 'M' =>
        match rest with
        | [p] => .ok ([], [p])
        | _ => .error "AssertionError: len(columns) == 2"
      | 'A' =>
        match rest with
        | [p] => .ok ([], [p])
        | _ => .error "AssertionError: len(columns) == 2"
      | 'D' =>
        match rest with
        | [p] => .ok ([p], [])
        | _ => .error "AssertionError: len(columns) == 2"
      | 'R' =>
        match rest with
        | [old, new] => .ok ([old], [new])
        | _ => .error "AssertionError: len(columns) == 3"
      | _ => .error "ValueError: Unsupported status"

/-- The accumulation of `delete_list` and `upload_list` over the status
lines, in line order (overleaf_sync.py lines 1080-1101). -/
def status_lists : List String → Except String (List String × List String)
  | [] => .ok ([], [])
  | line :: rest =>
    match line_actions line, status_lists rest with
    | .ok (d1, u1), .ok (dr, ur) => .ok (d1 ++ dr, u1 ++ ur)
    | .error e, _ => .error e
    | .ok _, .error e => .error e

/-- The ordered remote calls `OverleafProject._push` issues for a status
changeset (overleaf_sync.py lines 1103-1108): after the
`len(delete_list) + len(upload_list) > 0` assertion, all deletes are issued
first, then all uploads. -/
def push_actions (lines : List String) : Except String (List RemoteCall) :=
  match status_lists lines with
  | .error e => .error e
  | .ok (ds, us) =>
    if ds.length + us.length = 0 then
      .error "AssertionError: len(delete_list) + len(upload_list) > 0"
    else .ok (ds.map RemoteCall.del ++ us.map RemoteCall.up)

/-- The process exit codes of the tool (`ErrorNumber` in overleaf_sync.py
lines 63-74). -/
inductive ErrorNumber
  | OK
  | NOT_INITIALIZED_ERROR
  | WKDIR_CORRUPTED_ERROR
  | GIT_DIR_CORRUPTED_ERROR
  | HTTP_ERROR
  | GIT_ERROR
  | PULL_ERROR
  | PUSH_ERROR
  | WORKING_TREE_DIRTY_ERROR
  | REINITIALIZATION_ERROR
deriving DecidableEq

/-- The inputs `OverleafProject.push` branches on (overleaf_sync.py lines
1120-1156): whether the project is initialized, the `prune` flag, whether
the working branch has commits past the `ws` tag
(`new_working_commit_exists`), the remote and local versions compared by
`new_remote_overleaf_rev`, the empty remote folders `_push_prune` would
delete, and the working-branch status lines `_push` would translate. -/
structure PushState where
  initialized : Bool
  prune : Bool
  newWorkingCommit : Bool
  remoteV : Nat
  localV : Nat
  emptyFolders : List String
  statusLines : List String
deriving DecidableEq

/-- `OverleafProject.push` (overleaf_sync.py lines 1120-1156), reduced to
its exit code and the remote delete/upload calls it issues.  Note the
order of the guards in the source: the `prune` early return and the
no-new-commit return both come before the remote-ahead check. -/
def push_run (s : PushState) : Except String (ErrorNumber × List RemoteCall) :=
  if !s.initialized then .ok (.NOT_INITIALIZED_ERROR, [])
  else if s.prune then .ok (.OK, s.emptyFolders.map RemoteCall.del)
  else if !s.newWorkingCommit then .ok (.OK, [])
  else
    match new_remote_overleaf_rev s.remoteV s.localV with
    | .error e => .error e
    | .ok true => .ok (.PUSH_ERROR, [])
    | .ok false =>
      match push_actions s.statusLines with
      | .error e => .error e
      | .ok acts => .ok (.OK, acts)

/-- The observable steps of one `OverleafBroker.delete` call: the
interactive `input()` confirmation prompt, an operation-cancelled return,
and the HTTP DELETE request. -/
inductive DeleteEvent
  | prompted
  | cancelled
  | httpDelete
deriving DecidableEq

/-- `OverleafBroker.delete` (overleaf_sync.py lines 616-638).  `kind` is
the resolved type from `find_id_type` (`some "file" | some "doc" |
some "folder"`, or `none` when the pathname does not resolve);
`confirm_yes` is the oracle for the user's answer to the prompt.  The
prompt is evaluated whenever the type is `folder` — the short-circuit
`and` reaches `input()` before the `dry_run` check is ever made. -/
def overleaf_delete (kind : Option String) (confirm_yes : Bool)
    (dry_run : Bool) : Except String (List DeleteEvent) :=
  let prompt : List DeleteEvent := if kind = some "folder" then [.prompted] else []
  if kind = some "folder" ∧ confirm_yes = false then .ok (prompt ++ [.cancelled])
  else if dry_run then .ok prompt
  else if kind = some "file" ∨ kind = some "doc" ∨ kind = some "folder" then
    .ok (prompt ++ [.httpDelete])
  else .error "ValueError: Invalid type"

/-- The directory names pruned by `get_files_with_md5` (diff.py lines
22-28). -/
def banned_components : List String := [".git", ".overleaf-sync", "_minted-main"]

/-- One file of a folder as seen by `os.walk`: the directory components of
its location relative to the folder root, its basename, whether `open`
succeeds on it (`compute_md5` returns `None` on `FileNotFoundError`), and
its MD5 digest. -/
structure FSFile where
  dirs : List String
  name : String
  readable : Bool
  md5 : String
deriving DecidableEq

/-- The relative path (`os.path.relpath`) of a file, as components. -/
def rel_path (f : FSFile) : List String := f.dirs ++ [f.name]

/-- Whether `get_files_with_md5` skips the file's directory: some component
of `root.split(os.sep)` is one of the banned names. -/
def skipped_dir (f : FSFile) : Bool :=
  f.dirs.any (fun c => banned_components.contains c)

/-- The entry `get_files_with_md5` records for one file, if any. -/
def md5_entry (f : FSFile) : Option (List String × String) :=
  if skipped_dir f then none
  else if f.readable then some (rel_path f, f.md5) else none

/-- `get_files_with_md5` (diff.py lines 18-35): the relative-path → MD5
dictionary, as an association list in walk order. -/
def files_with_md5 (folder : List FSFile) : List (List String × String) :=
  folder.filterMap md5_entry

/-- The key set of `get_files_with_md5`'s dictionary. -/
def md5_keys (folder : List FSFile) : List (List String) :=
  (files_with_md5 folder).map Prod.fst

/-- Dictionary lookup `folderN_files[file]`. -/
def md5_of (folder : List FSFile) (p : List String) : Option String :=
  (files_with_md5 folder).lookup p

/-- The `only_in_folder1` set of `compare_folders` (diff.py lines 43-48):
`folder1_set - folder2_set`.  `only_in_folder2` is the same with the
folders swapped. -/
def only_in_first (f1 f2 : List FSFile) : List (List String) :=
  (md5_keys f1).filter (fun p => !((md5_keys f2).contains p))

/-- The `modified_files` set of `compare_folders` (diff.py lines 46-50):
common keys whose MD5 digests differ. -/
def modified_files (f1 f2 : List FSFile) : List (List String) :=
  ((md5_keys f1).filter (fun p => (md5_keys f2).contains p)).filter
    (fun p => md5_of f1 p != md5_of f2 p)

/-- Whether a relative path lies under a banned directory component. -/
def path_banned (p : List String) : Bool :=
  p.dropLast.any (fun c => banned_components.contains c)

/-- A git state whose fork-point tag is behind the overleaf tip (the
situation after new revisions were migrated onto the overleaf branch). -/
def git_state_c3 : GitState := ⟨7, 3, 5⟩

/-- A single-revision remote history 3->5 for the pull-monotonicity witness. -/
def upd_c4a : Update := ⟨3, 5, [userA], 0⟩

/-- A remote history whose latest version 2 is behind a local version 9. -/
def upd_c4b : Update := ⟨1, 2, [userA], 0⟩

/-- The boundary-shift example of the spec: a window starting at 63 pulled
when the locally recorded version is already 64. -/
def upd_c6 : Update := ⟨63, 68, [userA], 0⟩

/-- A well-formed diff: `u "overleaf "`, `d "cloud "`, `i "sync"`. -/
def diff_good : List DiffFrag :=
  [⟨some "overleaf ", none, none⟩, ⟨none, none, some "cloud "⟩,
    ⟨none, some "sync", none⟩]

/-- A malformed diff whose second fragment carries two kind tags. -/
def diff_bad : List DiffFrag :=
  [⟨some "overleaf ", none, none⟩, ⟨some "a", some "b", none⟩]

/-- A push invocation with `prune` set while the remote (version 5) is
ahead of the local record (version 3) and one empty remote folder exists. -/
def push_state_c8 : PushState := ⟨true, true, false, 5, 3, ["drafts"], []⟩

/-- A push invocation without `prune`, with new working commits, while the
remote (version 5) is ahead of the local record (version 3). -/
def push_state_c8w : PushState := ⟨true, false, true, 5, 3, [], ["M\tmain.tex"]⟩

/-- Folder 1 of the unreadable-file counterexample: `a.tex` exists but
reading it raises `FileNotFoundError`. -/
def folder_c10_1 : List FSFile := [⟨[], "a.tex", false, ""⟩]

/-- Folder 2 of the unreadable-file counterexample: `a.tex` is readable. -/
def folder_c10_2 : List FSFile := [⟨[], "a.tex", true, "d41d8cd98f"⟩]

/-- C2: migrating the spec's example revision `{fromV:10, toV:12,
users:[A,B]}` — where probing (10,11) finds only A and probing (11,12)
would find only B — produces a single commit `10->12` authored by A, not
the two commits `10->11` (A) and `11->12` (B) the claim describes: the
sub-boundary walk `for v in range(fromV + 1, toV)` ends before `toV`, so
the window ending at 12 is never probed and B is never seen. -/
theorem migrate_update_two_user_single_commit :
    migrate_update probe_c2 upd_c2 = .ok [⟨10, 12, 1001, some userA⟩] ∧
    [Commit.mk 10 12 1001 (some userA)].length ≠ 2 ∧
    (Commit.mk 10 12 1001 (some userA)).author ≠ some userB := by decide

/-- C3: if the rebase of the working branch onto the overleaf branch
reports a conflict, `rebase_working_branch` returns `false` but the `ws`
fork-point tag has nevertheless been force-moved to the overleaf tip (7),
away from the commit (5) it pointed to before — the tag update precedes
the conflict check in the source. -/
theorem rebase_conflict_moves_marker :
    (rebase_working_branch true 9 git_state_c3).1 = false ∧
    (rebase_working_branch true 9 git_state_c3).2.ws_tag =
      git_state_c3.overleaf_tip ∧
    git_state_c3.ws_tag ≠ git_state_c3.overleaf_tip := by decide

/-- C1 counterexample: the revision `{fromV:0, toV:1, users:[A,B]}` has two
distinct users, yet its migration succeeds with a single commit whose
author is `none` (committed as "Unknown") — not "exactly one user drawn
from that revision's users": the sub-boundary walk `range(1, 1)` is empty,
so `current_user` is still `None` at the final flush. -/
theorem migrate_update_unknown_author_cex :
    migrate_update probe_silent upd_c1 = .ok [⟨0, 1, 5, none⟩] ∧
    upd_c1.users.length = 2 ∧
    ([Commit.mk 0 1 5 none].all
      (fun c => upd_c1.users.any (fun u => c.author == some u))) = false := by
  decide

/-- C8 counterexample: a `push --prune` invocation while the remote (5) is
ahead of the local record (3) does not fail with a push error — it returns
`OK` and issues a remote folder delete: the `prune` early return precedes
the remote-ahead check. -/
theorem push_remote_ahead_cex :
    push_state_c8.localV < push_state_c8.remoteV ∧
    push_run push_state_c8 = .ok (ErrorNumber.OK, [RemoteCall.del "drafts"]) ∧
    ErrorNumber.OK ≠ ErrorNumber.PUSH_ERROR := by decide

/-- C9 counterexample: a dry-run delete of a folder still evaluates the
interactive `input()` prompt — the confirmation is not skipped in dry-run
mode, because the prompt is reached before the `dry_run` check. -/
theorem delete_dry_run_prompts_cex :
    overleaf_delete (some "folder") true true = .ok [DeleteEvent.prompted] ∧
    DeleteEvent.prompted ∈ [DeleteEvent.prompted] := by decide

/-- C10 counterexample: `a.tex` is unreadable in folder 1 (so the claim
requires it to be excluded from all three reported sets), yet its relative
path is reported in `only_in_folder2`: the unreadable file merely drops
out of folder 1's dictionary, making the path look unique to folder 2. -/
theorem compare_folders_unreadable_cex :
    (FSFile.mk [] "a.tex" false "") ∈ folder_c10_1 ∧
    (FSFile.mk [] "a.tex" false "").readable = false ∧
    rel_path (FSFile.mk [] "a.tex" false "") ∈
      only_in_first folder_c10_2 folder_c10_1 := by decide

/-- C9 (amended): for a delete whose resolved kind is folder, the HTTP
delete is only issued when the interactive confirmation was answered yes;
the confirmation prompt is evaluated on every folder delete, dry-run
included (the prompt precedes the `dry_run` check); and dry-run mode never
issues the HTTP delete itself. -/
theorem delete_folder_confirmation (confirm_yes dry_run : Bool)
    (evs : List DeleteEvent)
    (h : overleaf_delete (some "folder") confirm_yes dry_run = .ok evs) :
    (DeleteEvent.httpDelete ∈ evs → confirm_yes = true) ∧
    DeleteEvent.prompted ∈ evs ∧
    (dry_run = true → DeleteEvent.httpDelete ∉ evs) := by
  cases confirm_yes <;> cases dry_run
  · have he : overleaf_delete (some "folder") false false =
        .ok [DeleteEvent.prompted, DeleteEvent.cancelled] := by decide
    rw [he] at h
    rw [← Except.ok.inj h]
    decide
  · have he : overleaf_delete (some "folder") false true =
        .ok [DeleteEvent.prompted, DeleteEvent.cancelled] := by decide
    rw [he] at h
    rw [← Except.ok.inj h]
    decide
  · have he : overleaf_delete (some "folder") true false =
        .ok [DeleteEvent.prompted, DeleteEvent.httpDelete] := by decide
    rw [he] at h
    rw [← Except.ok.inj h]
    decide
  · have he : overleaf_delete (some "folder") true true =
        .ok [DeleteEvent.prompted] := by decide
    rw [he] at h
    rw [← Except.ok.inj h]
    decide

theorem delete_folder_confirmation_witness :
    (DeleteEvent.httpDelete ∈ [DeleteEvent.prompted, DeleteEvent.httpDelete] →
      true = true) ∧
    DeleteEvent.prompted ∈ [DeleteEvent.prompted, DeleteEvent.httpDelete] ∧
    (false = true →
      DeleteEvent.httpDelete ∉ [DeleteEvent.prompted, DeleteEvent.httpDelete]) :=
  delete_folder_confirmation true false
    [DeleteEvent.prompted, DeleteEvent.httpDelete] (by decide)

/-- C8 (amended): when push is invoked without `prune`, the project is
initialized and the working branch has new commits, an unseen remote
revision (remote version strictly above the local record) makes push
return `PUSH_ERROR` without issuing any remote delete or upload call. -/
theorem push_remote_ahead_refused (s : PushState)
    (h1 : s.initialized = true) (h2 : s.prune = false)
    (h3 : s.newWorkingCommit = true) (h4 : s.localV < s.remoteV) :
    push_run s = .ok (ErrorNumber.PUSH_ERROR, []) := by
  simp [push_run, h1, h2, h3, new_remote_overleaf_rev, Nat.lt_asymm h4, h4]

theorem push_remote_ahead_refused_witness :
    push_run push_state_c8w = .ok (ErrorNumber.PUSH_ERROR, []) :=
  push_remote_ahead_refused push_state_c8w rfl rfl rfl (by decide)

/-- C5: if every fragment of a diff carries exactly one of the kind tags
`u`, `i`, `d`, then `_diff_to_content` reconstructs the file as the
in-order concatenation of the `u` and `i` texts with `d` fragments
skipped; if any fragment carries zero or more than one tag, the parse-time
single-tag assertion fails instead. -/
theorem diff_reconstruction (diff : List DiffFrag) :
    ((∀ f ∈ diff, tag_count f = 1) →
      diff_to_content diff = .ok (spec_reconstruct diff)) ∧
    ((∃ f ∈ diff, tag_count f ≠ 1) →
      diff_to_content diff = .error "AssertionError: len(found_status) == 1") := by
  induction diff with
  | nil =>
    refine ⟨fun _ => rfl, fun h => ?_⟩
    obtain ⟨g, hg, _⟩ := h
    exact absurd hg (List.not_mem_nil g)
  | cons f fs ih =>
    constructor
    · intro hall
      have hf := hall f (List.mem_cons_self f fs)
      have hrest := ih.1 (fun g hg => hall g (List.mem_cons_of_mem f hg))
      simp only [diff_to_content, spec_reconstruct, if_pos hf]
      cases hu : f.u with
      | some s => simp [hu, hrest, Except.map, Option.orElse]
      | none =>
        cases hi : f.i with
        | some s => simp [hu, hi, hrest, Except.map, Option.orElse]
        | none => simp [hu, hi, hrest, Option.orElse]
    · rintro ⟨g, hg, hbad⟩
      rcases List.mem_cons.mp hg with hgf | hgfs
      · subst hgf
        simp only [diff_to_content, if_neg hbad]
      · have hrest := ih.2 ⟨g, hgfs, hbad⟩
        by_cases hf : tag_count f = 1
        · simp only [diff_to_content, if_pos hf]
          cases hu : f.u with
          | some s => simp [hu, hrest, Except.map]
          | none =>
            cases hi : f.i with
            | some s => simp [hu, hi, hrest, Except.map]
            | none => simp [hu, hi, hrest]
        · simp only [diff_to_content, if_neg hf]

theorem diff_reconstruction_witness :
    diff_to_content diff_good = .ok "overleaf sync" ∧
    diff_to_content diff_bad =
      .error "AssertionError: len(found_status) == 1" := by
  constructor
  · have h := (diff_reconstruction diff_good).1 (by decide)
    rw [h]
    rfl
  · exact (diff_reconstruction diff_bad).2
      ⟨⟨some "a", some "b", none⟩, by decide, by decide⟩

/-- `clamp_oldest` unfolded at a list with a known last element. -/
theorem clamp_oldest_eq (localV : Nat) (ups : List Update) (l : Update)
    (hl : ups.getLast? = some l) :
    clamp_oldest localV ups =
      if l.fromV < localV then ups.dropLast ++ [{ l with fromV := localV }]
      else ups := by
  unfold clamp_oldest
  rw [hl]

/-- C6: for a non-empty upcoming list (revisions with `toV` strictly above
the locally recorded version), the in-code assertion `toV > local` holds
for the oldest upcoming revision; its `fromV` is clamped up to the
recorded version exactly when it lies strictly below it; every other
revision of the list is left untouched; and any upcoming revision whose
`fromV` is not below the recorded version is replayed unmodified. -/
theorem pull_boundary_clamp (updates : List Update) (localV : Nat)
    (l : Update) (hl : (upcoming_updates localV updates).getLast? = some l) :
    localV < l.toV ∧
    (clamp_oldest localV (upcoming_updates localV updates)).getLast? =
      some (if l.fromV < localV then { l with fromV := localV } else l) ∧
    (clamp_oldest localV (upcoming_updates localV updates)).dropLast =
      (upcoming_updates localV updates).dropLast ∧
    ∀ u ∈ upcoming_updates localV updates, localV ≤ u.fromV →
      u ∈ clamp_oldest localV (upcoming_updates localV updates) := by
  have hmem : l ∈ upcoming_updates localV updates :=
    List.mem_of_getLast?_eq_some hl
  have h1 : localV < l.toV := by
    have hp := List.mem_takeWhile_imp hmem
    exact of_decide_eq_true hp
  have hsplit : (upcoming_updates localV updates).dropLast ++ [l] =
      upcoming_updates localV updates :=
    List.dropLast_append_getLast? l hl
  rw [clamp_oldest_eq localV (upcoming_updates localV updates) l hl]
  refine ⟨h1, ?_, ?_, ?_⟩
  · split_ifs with hf
    · rw [List.getLast?_concat]
    · rw [hl]
  · split_ifs with hf
    · rw [List.dropLast_concat]
    · rfl
  · intro u hu hge
    split_ifs with hf
    · have hne : u ≠ l := by
        intro he
        rw [he] at hge
        omega
      rw [← hsplit] at hu
      rcases List.mem_append.mp hu with hd | hs
      · exact List.mem_append_left _ hd
      · exact absurd (List.mem_singleton.mp hs) hne
    · exact hu

theorem pull_boundary_clamp_witness :
    (64 : Nat) < 68 ∧
    (clamp_oldest 64 (upcoming_updates 64 [upd_c6])).getLast? =
      some { upd_c6 with fromV := 64 } := by
  have h := pull_boundary_clamp [upd_c6] 64 upd_c6 (by decide)
  refine ⟨h.1, ?_⟩
  have h2 := h.2.1
  rw [if_pos (by decide : upd_c6.fromV < 64)] at h2
  exact h2

/-- Clamping the oldest upcoming revision never changes which revision is
replayed last nor its `toV` (only the oldest revision's `fromV` moves). -/
theorem clamp_oldest_head_toV (localV : Nat) (ups : List Update) :
    (clamp_oldest localV ups).head?.map Update.toV =
      ups.head?.map Update.toV := by
  match ups with
  | [] => rfl
  | [x] =>
    rw [clamp_oldest_eq localV [x] x rfl]
    split_ifs with hf <;> rfl
  | x :: y :: t =>
    cases hg : (y :: t).getLast? with
    | none => exact absurd hg (by simp)
    | some l =>
      have hg2 : (x :: y :: t).getLast? = some l := by
        rw [List.getLast?_cons_cons]
        exact hg
      rw [clamp_oldest_eq localV (x :: y :: t) l hg2]
      split_ifs with hf
      · rfl
      · rfl

/-- `pull_local_version` unfolded on a non-empty updates list. -/
theorem pull_local_version_cons (u : Update) (rest : List Update) (v : Nat) :
    pull_local_version (u :: rest) v =
      match new_remote_overleaf_rev u.toV v with
      | .error e => .error e
      | .ok false => .ok v
      | .ok true =>
        if (upcoming_updates v (u :: rest)).isEmpty then
          .error "AssertionError: len(upcoming_overleaf_versions) > 0"
        else
          match (clamp_oldest v (upcoming_updates v (u :: rest))).head? with
          | none => .error "AssertionError: len(upcoming_overleaf_versions) > 0"
          | some newest => .ok newest.toV := rfl

/-- One pull never decreases the recorded version and never pushes it past
the remote's newest `toV`. -/
theorem pull_local_version_spec (updates : List Update) (u0 : Update)
    (v v' : Nat) (h0 : updates.head? = some u0)
    (h : pull_local_version updates v = .ok v') : v ≤ v' ∧ v' ≤ u0.toV := by
  match updates with
  | [] => exact absurd h0 (by simp)
  | u :: rest =>
    have hu : u = u0 := by simpa using h0
    subst hu
    rw [pull_local_version_cons, new_remote_overleaf_rev] at h
    by_cases hlt : u.toV < v
    · rw [if_pos hlt] at h
      exact absurd h (by simp)
    · rw [if_neg hlt] at h
      by_cases hgt : v < u.toV
      · rw [show decide (v < u.toV) = true from decide_eq_true hgt] at h
        have hup : upcoming_updates v (u :: rest) =
            u :: upcoming_updates v rest := by
          unfold upcoming_updates
          exact List.takeWhile_cons_of_pos (by simpa using hgt)
        rw [hup] at h
        simp only [List.isEmpty_cons, Bool.false_eq_true, if_false] at h
        have hhead := clamp_oldest_head_toV v (u :: upcoming_updates v rest)
        cases hc : (clamp_oldest v (u :: upcoming_updates v rest)).head? with
        | none =>
          rw [hc] at hhead
          exact absurd hhead.symm (by simp)
        | some newest =>
          rw [hc] at hhead
          have hto : newest.toV = u.toV := by simpa using hhead
          rw [hc] at h
          simp only [Except.ok.injEq] at h
          omega
      · rw [show decide (v < u.toV) = false from decide_eq_false hgt] at h
        simp only [Except.ok.injEq] at h
        omega

/-- The recorded version is non-decreasing over any successful sequence of
pulls. -/
theorem pull_seq_mono (runs : List (List Update)) (v v' : Nat)
    (h : pull_seq runs v = .ok v') : v ≤ v' := by
  induction runs generalizing v with
  | nil =>
    have hv : v = v' := by simpa [pull_seq] using h
    omega
  | cons r rs ih =>
    rw [pull_seq] at h
    cases hr : pull_local_version r v with
    | error e =>
      rw [hr] at h
      exact absurd h (by simp)
    | ok w =>
      rw [hr] at h
      have hvw : v ≤ w := by
        cases r with
        | nil => exact absurd hr (by simp [pull_local_version])
        | cons u rest => exact (pull_local_version_spec (u :: rest) u v w rfl hr).1
      exact le_trans hvw (ih w h)

/-- C4: over any sequence of pulls the locally recorded remote version is
non-decreasing; a single successful pull leaves it between its old value
and the remote's latest `toV` at comparison time; and observing a remote
version strictly below the local record aborts the run with the
consistency assertion of `new_remote_overleaf_rev` instead of repairing
the record. -/
theorem pull_version_monotonic (runs : List (List Update))
    (updates : List Update) (u0 : Update) (v v' : Nat) :
    (pull_seq runs v = .ok v' → v ≤ v') ∧
    (pull_local_version updates v = .ok v' → updates.head? = some u0 →
      v ≤ v' ∧ v' ≤ u0.toV) ∧
    (updates.head? = some u0 → u0.toV < v →
      pull_local_version updates v =
        .error "AssertionError: remote_overleaf_version >= local_overleaf_version") := by
  refine ⟨fun h => pull_seq_mono runs v v' h,
    fun h h0 => pull_local_version_spec updates u0 v v' h0 h, ?_⟩
  intro h0 hlt
  match updates with
  | u :: rest =>
    have hu : u = u0 := by simpa using h0
    subst hu
    rw [pull_local_version_cons, new_remote_overleaf_rev, if_pos hlt]

theorem pull_version_monotonic_witness :
    ((3 : Nat) ≤ 5 ∧ (5 : Nat) ≤ upd_c4a.toV) ∧
    pull_local_version [upd_c4b] 9 =
      .error "AssertionError: remote_overleaf_version >= local_overleaf_version" := by
  constructor
  · exact (pull_version_monotonic [] [upd_c4a] upd_c4a 3 5).2.1
      (by decide) (by decide)
  · exact (pull_version_monotonic [] [upd_c4b] upd_c4b 9 0).2.2
      (by decide) (by decide)

/-- `push_actions` unfolded at a successful `status_lists` result. -/
theorem push_actions_ok_eq (lines : List String) (ds us : List String)
    (hs : status_lists lines = .ok (ds, us)) :
    push_actions lines =
      if ds.length + us.length = 0 then
        .error "AssertionError: len(delete_list) + len(upload_list) > 0"
      else .ok (ds.map RemoteCall.del ++ us.map RemoteCall.up) := by
  unfold push_actions
  rw [hs]

/-- A successful `push_actions` result is always all deletes followed by
all uploads. -/
theorem push_actions_shape (lines : List String) (acts : List RemoteCall)
    (h : push_actions lines = .ok acts) :
    ∃ ds us : List String,
      acts = ds.map RemoteCall.del ++ us.map RemoteCall.up := by
  cases hs : status_lists lines with
  | error e =>
    unfold push_actions at h
    rw [hs] at h
    exact absurd h (by simp)
  | ok p =>
    obtain ⟨ds, us⟩ := p
    rw [push_actions_ok_eq lines ds us hs] at h
    by_cases hz : ds.length + us.length = 0
    · rw [if_pos hz] at h
      exact absurd h (by simp)
    · rw [if_neg hz] at h
      exact ⟨ds, us, (Except.ok.inj h).symm⟩

/-- Positions in a deletes-then-uploads list: the first segment holds only
delete calls, the rest only upload calls. -/
theorem del_up_append_get (ds us : List String) (k : Nat)
    (hk : k < (ds.map RemoteCall.del ++ us.map RemoteCall.up).length) :
    (k < ds.length →
      ∃ p, (ds.map RemoteCall.del ++ us.map RemoteCall.up).get ⟨k, hk⟩ =
        RemoteCall.del p) ∧
    (ds.length ≤ k →
      ∃ p, (ds.map RemoteCall.del ++ us.map RemoteCall.up).get ⟨k, hk⟩ =
        RemoteCall.up p) := by
  have hk' : k < ds.length + us.length := by
    simpa [List.length_append, List.length_map] using hk
  constructor
  · intro hlt
    have hk1 : k < (ds.map RemoteCall.del).length := by
      simpa [List.length_map] using hlt
    have hkd : k < ds.length := hlt
    rw [List.get_eq_getElem, List.getElem_append_left hk1]
    rw [List.getElem_map]
    exact ⟨ds[k], rfl⟩
  · intro hge
    have hge1 : (ds.map RemoteCall.del).length ≤ k := by
      simpa [List.length_map] using hge
    have hb : k - (List.map RemoteCall.del ds).length < us.length := by
      simp only [List.length_map]
      omega
    rw [List.get_eq_getElem, List.getElem_append_right hge1]
    rw [List.getElem_map]
    exact ⟨us[k - (List.map RemoteCall.del ds).length], rfl⟩

/-- C7: for every status changeset `_push` accepts, every delete call is
issued before every upload call (any upload position is strictly after any
delete position), and the rename line `R100\told.tex\tnew.tex` contributes
exactly one delete of the old path and one upload of the new path. -/
theorem push_delete_before_upload (lines : List String)
    (acts : List RemoteCall) (h : push_actions lines = .ok acts) :
    (∀ i j (hi : i < acts.length) (hj : j < acts.length),
      (∃ p, acts.get ⟨i, hi⟩ = RemoteCall.up p) →
      (∃ q, acts.get ⟨j, hj⟩ = RemoteCall.del q) → j < i) ∧
    line_actions "R100\told.tex\tnew.tex" = .ok (["old.tex"], ["new.tex"]) := by
  refine ⟨?_, by decide⟩
  obtain ⟨ds, us, rfl⟩ := push_actions_shape lines acts h
  rintro i j hi hj ⟨p, hp⟩ ⟨q, hq⟩
  have hi' : ds.length ≤ i := by
    by_contra hc
    push_neg at hc
    obtain ⟨p', hp'⟩ := (del_up_append_get ds us i hi).1 hc
    rw [hp] at hp'
    exact RemoteCall.noConfusion hp'
  have hj' : j < ds.length := by
    by_contra hc
    push_neg at hc
    obtain ⟨q', hq'⟩ := (del_up_append_get ds us j hj).2 hc
    rw [hq] at hq'
    exact RemoteCall.noConfusion hq'
  omega

theorem push_delete_before_upload_witness :
    line_actions "R100\told.tex\tnew.tex" = .ok (["old.tex"], ["new.tex"]) ∧
    (0 : Nat) < 1 := by
  have h := push_delete_before_upload ["R100\told.tex\tnew.tex"]
    [RemoteCall.del "old.tex", RemoteCall.up "new.tex"] (by decide)
  refine ⟨h.2, ?_⟩
  exact h.1 1 0 (by decide) (by decide)
    ⟨"new.tex", by decide⟩ ⟨"old.tex", by decide⟩

/-- One unfolding step of the sub-boundary walk on a non-empty range. -/
theorem migrate_update_loop_cons (probe : Nat → Nat → List User × Nat)
    (toV v : Nat) (vs : List Nat) (from_v ts : Nat) (cur : Option User) :
    migrate_update_loop probe toV (v :: vs) from_v ts cur =
      match probe from_v v, cur with
      | ([], ts1), c => migrate_update_loop probe toV vs from_v ts1 c
      | ([u], ts1), none => migrate_update_loop probe toV vs from_v ts1 (some u)
      | ([u], ts1), some c =>
        if c.id = u.id then migrate_update_loop probe toV vs from_v ts1 (some c)
        else if from_v < v - 1 then
          Except.map (fun rest => Commit.mk from_v (v - 1) ts1 (some c) :: rest)
            (migrate_update_loop probe toV vs (v - 1) ts1 (some u))
        else .error "AssertionError: There should be at least one update before this"
      | ([u1, _], ts1), c2 =>
        if from_v < v - 1 then
          match c2 with
          | some c =>
            Except.map (fun rest => Commit.mk from_v (v - 1) ts1 (some c) :: rest)
              (migrate_update_loop probe toV vs (v - 1) ts1 (some u1))
          | none => .error "AssertionError: Current user should be set"
        else .error "AssertionError: There should be at least one update before this"
      | (_, _), _ => .error "ValueError: Too many users in the update" := rfl

/-- Invariant of the multi-user sub-boundary walk: whatever commits a
successful run emits tile `[from_v, toV]` exactly, and every author it
attributes comes from the probed users (tracked through `current_user`). -/
theorem migrate_loop_spec (probe : Nat → Nat → List User × Nat)
    (us0 : List User) (toV : Nat)
    (hp : ∀ a b u, u ∈ (probe a b).1 → u ∈ us0) :
    ∀ vs from_v ts cur cs,
      (∀ v ∈ vs, v < toV) →
      from_v < toV →
      (∀ u, cur = some u → u ∈ us0) →
      migrate_update_loop probe toV vs from_v ts cur = .ok cs →
      covers cs from_v toV = true ∧
        ∀ c ∈ cs, ∀ u, c.author = some u → u ∈ us0 := by
  intro vs
  induction vs with
  | nil =>
    intro from_v ts cur cs _ hlt hcur h
    rw [migrate_update_loop] at h
    obtain rfl : [Commit.mk from_v toV ts cur] = cs := Except.ok.inj h
    refine ⟨?_, ?_⟩
    · simp [covers, Nat.blt_eq, hlt]
    · intro c hc u hu
      rw [List.mem_singleton] at hc
      subst hc
      exact hcur u hu
  | cons v vs ih =>
    intro from_v ts cur cs hvs hlt hcur h
    have hv : v < toV := hvs v (List.mem_cons_self v vs)
    have hvs2 : ∀ w ∈ vs, w < toV :=
      fun w hw => hvs w (List.mem_cons_of_mem v hw)
    rw [migrate_update_loop_cons] at h
    cases hpr : probe from_v v with
    | mk pus pts =>
    rw [hpr] at h
    match pus, cur, hcur, h, hpr with
    | [], cur, hcur, h, hpr => ?_
    | [u], none, hcur, h, hpr => ?_
    | [u], some c, hcur, h, hpr => ?_
    | [u1, u2], cur, hcur, h, hpr => ?_
    | u1 :: u2 :: u3 :: ur, cur, hcur, h, hpr => ?_
    all_goals dsimp only at h
    · exact ih from_v pts cur cs hvs2 hlt hcur h
    · have hu : u ∈ us0 :=
        hp from_v v u (by rw [hpr]; exact List.mem_singleton.mpr rfl)
      refine ih from_v pts (some u) cs hvs2 hlt ?_ h
      intro w hw
      exact Option.some.inj hw ▸ hu
    · have hc : c ∈ us0 := hcur c rfl
      have hu : u ∈ us0 :=
        hp from_v v u (by rw [hpr]; exact List.mem_singleton.mpr rfl)
      by_cases hid : c.id = u.id
      · rw [if_pos hid] at h
        refine ih from_v pts (some c) cs hvs2 hlt ?_ h
        intro w hw
        exact Option.some.inj hw ▸ hc
      · rw [if_neg hid] at h
        by_cases hfv : from_v < v - 1
        · rw [if_pos hfv] at h
          cases hr : migrate_update_loop probe toV vs (v - 1) pts (some u) with
          | error e =>
            rw [hr] at h
            exact absurd h (by simp [Except.map])
          | ok rest =>
            rw [hr] at h
            simp only [Except.map, Except.ok.injEq] at h
            subst h
            have hrec := ih (v - 1) pts (some u) rest hvs2 (by omega)
              (fun w hw => Option.some.inj hw ▸ hu) hr
            refine ⟨?_, ?_⟩
            · simp [covers, Nat.blt_eq, hfv, hrec.1]
            · intro cc hcc w hw
              rcases List.mem_cons.mp hcc with rfl | hcc2
              · exact Option.some.inj hw ▸ hc
              · exact hrec.2 cc hcc2 w hw
        · rw [if_neg hfv] at h
          exact absurd h (by simp)
    · have hu1 : u1 ∈ us0 :=
        hp from_v v u1 (by rw [hpr]; exact List.mem_cons_self u1 [u2])
      by_cases hfv : from_v < v - 1
      · rw [if_pos hfv] at h
        cases cur with
        | none => exact absurd h (by simp)
        | some c =>
          have hc : c ∈ us0 := hcur c rfl
          cases hr : migrate_update_loop probe toV vs (v - 1) pts (some u1) with
          | error e =>
            rw [hr] at h
            exact absurd h (by simp [Except.map])
          | ok rest =>
            rw [hr] at h
            simp only [Except.map, Except.ok.injEq] at h
            subst h
            have hrec := ih (v - 1) pts (some u1) rest hvs2 (by omega)
              (fun w hw => Option.some.inj hw ▸ hu1) hr
            refine ⟨?_, ?_⟩
            · simp [covers, Nat.blt_eq, hfv, hrec.1]
            · intro cc hcc w hw
              rcases List.mem_cons.mp hcc with rfl | hcc2
              · exact Option.some.inj hw ▸ hc
              · exact hrec.2 cc hcc2 w hw
      · rw [if_neg hfv] at h
        exact absurd h (by simp)
    · exact absurd h (by simp)

/-- C1 (amended): for a revision with at least two users whose migration
completes without an assertion failure, the emitted commit spans are
contiguous and exactly cover `[fromV, toV]` with no gap or overlap; each
commit carries at most one author; and provided the sub-window probes only
ever report users of the revision (the remote's contract), every commit
that names an author names one of the revision's users.  (A run in which
no probe identifies any user flushes a single commit authored "Unknown" —
see the counterexample — so not every commit names a revision user.) -/
theorem migrate_update_author_split (probe : Nat → Nat → List User × Nat)
    (upd : Update) (cs : List Commit)
    (h1 : 2 ≤ upd.users.length)
    (h2 : upd.fromV < upd.toV)
    (h3 : migrate_update probe upd = .ok cs)
    (h4 : ∀ a b u, u ∈ (probe a b).1 → u ∈ upd.users) :
    covers cs upd.fromV upd.toV = true ∧
      ∀ c ∈ cs, ∀ u, c.author = some u → u ∈ upd.users := by
  have hne : upd.users.length ≠ 1 := by omega
  unfold migrate_update at h3
  rw [if_neg hne] at h3
  refine migrate_loop_spec probe upd.users upd.toV h4
    (List.range' (upd.fromV + 1) (upd.toV - (upd.fromV + 1)))
    upd.fromV upd.end_ts none cs ?_ h2
    (by intro u hu; exact absurd hu (by simp)) h3
  intro v hv
  rw [List.mem_range'] at hv
  obtain ⟨i, hi, rfl⟩ := hv
  omega

theorem migrate_update_author_split_witness :
    covers [Commit.mk 0 1 5 none] 0 1 = true ∧
    ∀ c ∈ [Commit.mk 0 1 5 none], ∀ u, c.author = some u → u ∈ upd_c1.users :=
  migrate_update_author_split probe_silent upd_c1 [⟨0, 1, 5, none⟩]
    (by decide) (by decide) (by decide)
    (fun a b u hu => absurd hu (by simp [probe_silent]))

/-- When `get_files_with_md5` records an entry for a file. -/
theorem md5_entry_some (f : FSFile) (x : List String × String) :
    md5_entry f = some x ↔
      skipped_dir f = false ∧ f.readable = true ∧ x = (rel_path f, f.md5) := by
  unfold md5_entry
  by_cases h1 : skipped_dir f
  · simp [h1]
  · by_cases h2 : f.readable
    · simp [h1, h2, eq_comm]
    · simp [h1, h2]

/-- Which relative paths appear as keys of `get_files_with_md5`'s
dictionary. -/
theorem mem_md5_keys (folder : List FSFile) (p : List String) :
    p ∈ md5_keys folder ↔
      ∃ f ∈ folder, skipped_dir f = false ∧ f.readable = true ∧
        rel_path f = p := by
  unfold md5_keys files_with_md5
  simp only [List.mem_map, List.mem_filterMap, md5_entry_some]
  constructor
  · rintro ⟨x, ⟨f, hf, hs, hr, rfl⟩, hp⟩
    exact ⟨f, hf, hs, hr, hp⟩
  · rintro ⟨f, hf, hs, hr, rfl⟩
    exact ⟨(rel_path f, f.md5), ⟨f, hf, hs, hr, rfl⟩, rfl⟩

/-- Banned directory components keep a path out of the dictionary. -/
theorem banned_not_mem_keys (folder : List FSFile) (p : List String)
    (hb : path_banned p = true) : p ∉ md5_keys folder := by
  intro hmem
  obtain ⟨f, _, hs, _, hrel⟩ := (mem_md5_keys folder p).mp hmem
  have hdirs : p.dropLast = f.dirs := by
    rw [← hrel]
    unfold rel_path
    exact List.dropLast_concat
  unfold path_banned at hb
  rw [hdirs] at hb
  unfold skipped_dir at hs
  rw [hs] at hb
  exact Bool.false_ne_true hb

/-- Membership in `only_in_folder1`. -/
theorem mem_only_in_first (f1 f2 : List FSFile) (p : List String) :
    p ∈ only_in_first f1 f2 ↔ p ∈ md5_keys f1 ∧ p ∉ md5_keys f2 := by
  unfold only_in_first
  simp [List.mem_filter]

/-- Membership in `modified_files`. -/
theorem mem_modified_files (f1 f2 : List FSFile) (p : List String) :
    p ∈ modified_files f1 f2 ↔
      (p ∈ md5_keys f1 ∧ p ∈ md5_keys f2) ∧ md5_of f1 p ≠ md5_of f2 p := by
  unfold modified_files
  simp only [List.mem_filter, List.elem_eq_mem, decide_eq_true_eq, bne_iff_ne]

/-- C10 (amended): the three sets reported by `compare_folders` are
pairwise disjoint (each relative path lands in at most one); a path under
a directory component named `.git`, `.overleaf-sync` or `_minted-main` is
excluded from all three sets; and an unreadable file contributes nothing
itself — its path cannot appear in its own folder's only-in set nor in the
modified set (though the same path may still be reported as only-in the
other folder when a readable file exists there). -/
theorem compare_folders_classification (f1 f2 : List FSFile)
    (p : List String) :
    (p ∈ only_in_first f1 f2 →
      p ∉ only_in_first f2 f1 ∧ p ∉ modified_files f1 f2) ∧
    (p ∈ modified_files f1 f2 →
      p ∉ only_in_first f1 f2 ∧ p ∉ only_in_first f2 f1) ∧
    (path_banned p = true →
      p ∉ only_in_first f1 f2 ∧ p ∉ only_in_first f2 f1 ∧
        p ∉ modified_files f1 f2) ∧
    (∀ g ∈ f1, g.readable = false → (f1.map rel_path).Nodup →
      rel_path g ∉ only_in_first f1 f2 ∧
        rel_path g ∉ modified_files f1 f2) := by
  refine ⟨?_, ?_, ?_, ?_⟩
  · intro h
    obtain ⟨hk1, hk2⟩ := (mem_only_in_first f1 f2 p).mp h
    constructor
    · intro h2
      exact hk2 ((mem_only_in_first f2 f1 p).mp h2).1
    · intro h2
      exact hk2 ((mem_modified_files f1 f2 p).mp h2).1.2
  · intro h
    obtain ⟨⟨hk1, hk2⟩, _⟩ := (mem_modified_files f1 f2 p).mp h
    constructor
    · intro h2
      exact ((mem_only_in_first f1 f2 p).mp h2).2 hk2
    · intro h2
      exact ((mem_only_in_first f2 f1 p).mp h2).2 hk1
  · intro hb
    refine ⟨?_, ?_, ?_⟩
    · intro h2
      exact banned_not_mem_keys f1 p hb ((mem_only_in_first f1 f2 p).mp h2).1
    · intro h2
      exact banned_not_mem_keys f2 p hb ((mem_only_in_first f2 f1 p).mp h2).1
    · intro h2
      exact banned_not_mem_keys f1 p hb
        ((mem_modified_files f1 f2 p).mp h2).1.1
  · intro g hg hr hnd
    have hk : rel_path g ∉ md5_keys f1 := by
      intro hmem
      obtain ⟨f, hf, _, hfr, hrel⟩ := (mem_md5_keys f1 (rel_path g)).mp hmem
      have : f = g := List.inj_on_of_nodup_map hnd hf hg hrel
      rw [this] at hfr
      rw [hr] at hfr
      exact Bool.false_ne_true hfr
    constructor
    · intro h2
      exact hk ((mem_only_in_first f1 f2 (rel_path g)).mp h2).1
    · intro h2
      exact hk ((mem_modified_files f1 f2 (rel_path g)).mp h2).1.1

theorem compare_folders_classification_witness :
    ["a.tex"] ∉ only_in_first folder_c10_1 folder_c10_2 ∧
    ["a.tex"] ∉ modified_files folder_c10_2 folder_c10_1 := by
  have h := (compare_folders_classification folder_c10_2 folder_c10_1
    ["a.tex"]).1 (by decide)
  exact ⟨h.1, h.2⟩
